import Mathlib

/-!
Shallow embedding of `src/python/accelerated_segments_ffmpeg.py`.

Strings are modelled as `List Char`; Python `int` values as `Int`; fallible
code returns `Except PyError`.  The filesystem / subprocess glue
(`parse_timestamps`, the `Path` handling and the `subprocess.check_output`
calls) is outside the embedded fragment; the per-pair loop body of
`process_video` (lines 176-208) is embedded as `process_video_step`, which
records the command descriptors that the code hands to `ffmpeg_cmd`.
Python's `random.randint` is modelled by an oracle `rand : Int → Int → Int`
passed in; `randint_ok` states the range contract of `randint`.
Python's float true-division followed by `int(...)` truncation is modelled
exactly on the rationals by `Int.div` (truncation toward zero); all uses
divide a non-negative integer by a positive one, where every rounding
convention agrees.
-/

namespace ASF

/-- The Python exception kinds that the embedded fragment can raise:
`invalidFormat` is the `ValueError` re-raised by `__post_init__`,
`indexError` an uncaught `IndexError`, `invalidRange` the `ValueError`
of `get_vel`, `zeroDivision` a `ZeroDivisionError`. -/
inductive PyError where
  | invalidFormat
  | indexError
  | invalidRange
  | zeroDivision
deriving DecidableEq

/-- The `type` field of `VideoTimestamp`, `Literal["+", "-", "|"]`. -/
inductive Sign where
  | plus
  | minus
  | bar
deriving DecidableEq

/-- The character a `Sign` stands for. -/
def Sign.char : Sign → Char
  | .plus => '+'
  | .minus => '-'
  | .bar => '|'

/-- The `orientation` field, `Literal["negative", "positive"]`. -/
inductive Orientation where
  | positive
  | negative
deriving DecidableEq

/-- The value of an ASCII digit character. -/
def charVal (c : Char) : Nat := c.toNat - 48

/-- Decimal digits of `n`, most significant first, accumulated onto `acc`;
the structural `fuel` bounds the recursion depth (`n` itself suffices,
since `n / 10 < n` for `n ≠ 0`). -/
def natToDigitsGo (fuel : Nat) (n : Nat) (acc : List Char) : List Char :=
  match fuel with
  | 0 => acc
  | fuel + 1 =>
    if n = 0 then acc
    else natToDigitsGo fuel (n / 10) (Nat.digitChar (n % 10) :: acc)

/-- Decimal rendering of a natural number, as Python renders `int`. -/
def natToDigits (n : Nat) : List Char :=
  if n = 0 then ['0'] else natToDigitsGo n n []

/-- Python `f"{n:02d}"`: decimal rendering zero-padded to width 2
(the sign, for a negative value, counts toward the width). -/
def format02 (n : Int) : List Char :=
  if n < 0 then '-' :: natToDigits n.natAbs
  else
    let ds := natToDigits n.toNat
    if ds.length < 2 then List.replicate (2 - ds.length) '0' ++ ds else ds

/-- Characters Python `str.strip()` / `int(...)` treat as whitespace
(ASCII fragment). -/
def isPyWS (c : Char) : Bool :=
  c = ' ' || c = '\t' || c = '\n' || c = '\r' || c = '\x0b' || c = '\x0c'

/-- Strip leading and trailing whitespace, as `int(...)` does. -/
def pyStrip (s : List Char) : List Char :=
  ((s.dropWhile isPyWS).reverse.dropWhile isPyWS).reverse

/-- Digit run with optional single underscores between digits, continuing
with accumulator `acc`; the tail of Python's integer-literal grammar. -/
def pyDigitsGo (acc : Nat) : List Char → Option Nat
  | [] => some acc
  | c :: rest =>
    if c.isDigit then pyDigitsGo (acc * 10 + charVal c) rest
    else if c = '_' then
      match rest with
      | [] => none
      | d :: rest2 =>
        if d.isDigit then pyDigitsGo (acc * 10 + charVal d) rest2 else none
    else none

/-- Value of a non-empty digit run (Python decimal-literal body). -/
def pyDigitsVal : List Char → Option Nat
  | [] => none
  | c :: rest => if c.isDigit then pyDigitsGo (charVal c) rest else none

/-- Python `int(s)` on a string: strip whitespace, optional sign, decimal
digits (ASCII fragment of CPython's grammar); `none` models `ValueError`. -/
def pyInt (s : List Char) : Option Int :=
  match pyStrip s with
  | [] => none
  | c :: rest =>
    if c = '+' then (pyDigitsVal rest).map (fun n => (n : Int))
    else if c = '-' then (pyDigitsVal rest).map (fun n => -(n : Int))
    else (pyDigitsVal (c :: rest)).map (fun n => (n : Int))

/-- Python `s.split(sep)` for a one-character separator: keeps empty
fields, never returns an empty list. -/
def pySplit (sep : Char) : List Char → List (List Char)
  | [] => [[]]
  | c :: rest =>
    if c = sep then [] :: pySplit sep rest
    else
      match pySplit sep rest with
      | [] => [[c]]
      | f :: fs => (c :: f) :: fs

/-- Join fields with the `:` separator (the inverse of `pySplit ':'` on
colon-free fields); used to quantify over all inputs of a given field
shape when stating parsing claims. -/
def joinColon : List (List Char) → List Char
  | [] => []
  | [f] => f
  | f :: fs => f ++ ':' :: joinColon fs

/-- The dataclass `VideoTimestamp` (fields of lines 9-16). -/
structure VideoTimestamp where
  timestamp : List Char
  type : Sign
  hour : Int
  minute : Int
  second : Int
  orientation : Orientation
deriving DecidableEq

/-- `__post_init__`, all-fields-given branch (lines 19-25): regenerate the
canonical string `{leading_char}{hour:02d}:{minute:02d}:{second:02d}`. -/
def VideoTimestamp.mk_direct (ty : Sign) (hour minute second : Int)
    (o : Orientation) : VideoTimestamp :=
  let leading_char : List Char := if ty = Sign.bar then [] else [ty.char]
  { timestamp :=
      leading_char ++ (format02 hour ++ ':' :: (format02 minute ++ ':' :: format02 second))
    type := ty
    hour := hour
    minute := minute
    second := second
    orientation := o }

/-- `total_seconds` property (lines 69-71). -/
def VideoTimestamp.total_seconds (t : VideoTimestamp) : Int :=
  t.hour * 3600 + t.minute * 60 + t.second

/-- Python `list[i]`: `IndexError` when out of range. -/
def listIndex (l : List (List Char)) (i : Nat) : Except PyError (List Char) :=
  match l.get? i with
  | some x => .ok x
  | none => .error .indexError

/-- Python `int(field)` inside the `try` of `__post_init__`: a `ValueError`
is caught and re-raised as the invalid-format `ValueError`. -/
def pyIntE (f : List Char) : Except PyError Int :=
  match pyInt f with
  | some v => .ok v
  | none => .error .invalidFormat

/-- `__post_init__`, string branch (lines 26-37): take the first character
as the sign (defaulting to `|`), remove every occurrence of that character
from the whole string (`str.replace`), split on `:` and parse the first
three fields with `int`.  `self.timestamp[0]` on an empty string and a
missing `split_timestamp[i]` raise `IndexError`, which the
`except (KeyError, ValueError)` clause does not catch. -/
def VideoTimestamp.parse (s : List Char) : Except PyError VideoTimestamp :=
  match s with
  | [] => .error .indexError
  | c :: _ =>
    let ty : Sign := if c = '+' then .plus else if c = '-' then .minus else .bar
    let body := List.filter (fun x => x ≠ ty.char) s
    let fields := pySplit ':' body
    match listIndex fields 0 with
    | .error e => .error e
    | .ok f0 =>
      match pyIntE f0 with
      | .error e => .error e
      | .ok h =>
        match listIndex fields 1 with
        | .error e => .error e
        | .ok f1 =>
          match pyIntE f1 with
          | .error e => .error e
          | .ok m =>
            match listIndex fields 2 with
            | .error e => .error e
            | .ok f2 =>
              match pyIntE f2 with
              | .error e => .error e
              | .ok sec => .ok ⟨body, ty, h, m, sec, .positive⟩

/-- `from_seconds` (lines 39-53): absolute decomposition of `abs(seconds)`
by 3600 and 60, orientation recording the original sign, type `|`. -/
def VideoTimestamp.from_seconds (n : Int) : VideoTimestamp :=
  let s : Nat := n.natAbs
  let o : Orientation := if n < 0 then .negative else .positive
  VideoTimestamp.mk_direct .bar (s / 3600) ((s % 3600) / 60) (s % 60) o

/-- `plus` (lines 55-56). -/
def VideoTimestamp.plus (a b : VideoTimestamp) : VideoTimestamp :=
  VideoTimestamp.from_seconds (a.total_seconds + b.total_seconds)

/-- `minus` (lines 65-67). -/
def VideoTimestamp.minus (a b : VideoTimestamp) : VideoTimestamp :=
  VideoTimestamp.from_seconds (a.total_seconds - b.total_seconds)

/-- `plus_seconds` (lines 61-63). -/
def VideoTimestamp.plus_seconds (a : VideoTimestamp) (n : Int) : VideoTimestamp :=
  VideoTimestamp.from_seconds (a.total_seconds + n)

/-- `minus_seconds` (lines 58-59). -/
def VideoTimestamp.minus_seconds (a : VideoTimestamp) (n : Int) : VideoTimestamp :=
  a.plus_seconds (-n)

/-- Default value of `get_vel`'s `min_speed_duration` argument. -/
def default_min_speed_duration : List Char := "00:00:10".toList

/-- Default value of `get_vel`'s `max_speed_duration` argument. -/
def default_max_speed_duration : List Char := "00:00:30".toList

/-- The range contract of Python's `random.randint(lo, hi)`. -/
def randint_ok (rand : Int → Int → Int) : Prop :=
  ∀ lo hi : Int, lo ≤ hi → lo ≤ rand lo hi ∧ rand lo hi ≤ hi

/-- `get_vel` (lines 142-162).  The order of operations follows the source:
the (never-true) `(vt1 - vt2).total_seconds < 0` guard, parsing
`min_speed_duration`, the `vt2 - vt1 <= min_speed_duration` early return,
parsing `max_speed_duration`, the componentwise `randint` draw, and
`int((vt2 - vt1) / random_duration)` (float division then truncation,
modelled exactly by `Int.div`; a zero draw total would be Python's
`ZeroDivisionError`). -/
def get_vel (rand : Int → Int → Int) (vt1 vt2 : VideoTimestamp)
    (min_speed_duration max_speed_duration : List Char) : Except PyError Int :=
  if (vt1.minus vt2).total_seconds < 0 then .error .invalidRange
  else
    match VideoTimestamp.parse min_speed_duration with
    | .error e => .error e
    | .ok msd =>
      if (vt2.minus vt1).total_seconds ≤ msd.total_seconds then .ok 1
      else
        match VideoTimestamp.parse max_speed_duration with
        | .error e => .error e
        | .ok maxd =>
          let random_duration := VideoTimestamp.mk_direct .bar
            (rand msd.hour maxd.hour) (rand msd.minute maxd.minute)
            (rand msd.second maxd.second) .positive
          if random_duration.total_seconds = 0 then .error .zeroDivision
          else .ok (Int.tdiv (vt2.minus vt1).total_seconds random_duration.total_seconds)

/-- The argument bundle of one `ffmpeg_cmd` invocation (input, output,
`-ss` start, `-to` end — named `to_ts` since `to` is a Lean keyword — and
velocity). -/
structure SegmentCmd where
  input : List Char
  output : List Char
  start : List Char
  to_ts : List Char
  velocity : Int
deriving DecidableEq

/-- `ffmpeg_cmd` (lines 105-131).  Its first statement computes
`pts = round(1 / velocity, 2)`, which raises `ZeroDivisionError` when
`velocity = 0`; otherwise it returns the argument list.  The float
filter-string rendering is not observable by any claim, so a successful
call is modelled by its argument bundle. -/
def ffmpeg_cmd (input output start to_ts : List Char) (velocity : Int) :
    Except PyError SegmentCmd :=
  if velocity = 0 then .error .zeroDivision
  else .ok ⟨input, output, start, to_ts, velocity⟩

/-- What one iteration of `process_video`'s loop produces: the final `vel`,
the rest-segment command, and the accelerated-segment command when one is
built and dispatched (lines 199-208). -/
structure PairPlan where
  vel : Int
  cmd_rest_seg : SegmentCmd
  cmd_vel_seg : Option SegmentCmd
deriving DecidableEq

/-- Loop body of `process_video` (lines 176-208) for one consecutive pair,
after the `- offset` normalisation produced `vt1` and `vt2`:
`vel = min(get_vel(vt1 + rest_time, vt2), 70)`; if
`(vt2 - vt1).total_seconds < 25` the rest segment runs to `vt2` and `vel`
is forced to 1, otherwise it runs to `vt1 + rest_time`; the rest command
is built first (line 191, velocity 1) and the accelerated command is built
and dispatched only when `(vt2 - vt1).total_seconds > 25` (line 199).
The file-existence checks guarding `subprocess.check_output` are I/O and
not part of the embedded fragment; a `.ok` plan records the commands the
iteration hands to the dispatcher. -/
def process_video_step (rand : Int → Int → Int) (vt1 vt2 rest_time : VideoTimestamp)
    (input_file out_file_rest out_file_vel : List Char) : Except PyError PairPlan :=
  match get_vel rand (vt1.plus rest_time) vt2
      default_min_speed_duration default_max_speed_duration with
  | .error e => .error e
  | .ok v0 =>
    let vel0 := min v0 70
    let rest_to_ts :=
      if (vt2.minus vt1).total_seconds < 25 then vt2.timestamp
      else (vt1.plus rest_time).timestamp
    let vel := if (vt2.minus vt1).total_seconds < 25 then (1 : Int) else vel0
    match ffmpeg_cmd input_file out_file_rest vt1.timestamp rest_to_ts 1 with
    | .error e => .error e
    | .ok cmd_rest_seg =>
      match (if (vt2.minus vt1).total_seconds > 25 then
          (ffmpeg_cmd input_file out_file_vel (vt1.plus rest_time).timestamp
            vt2.timestamp vel).map some
        else .ok none) with
      | .error e => .error e
      | .ok cmd_vel_seg => .ok ⟨vel, cmd_rest_seg, cmd_vel_seg⟩

/-! ### Lemmas about the digit-string toolbox -/

/-- Lists all of whose characters are decimal digit characters. -/
def IsDigitList (l : List Char) : Prop :=
  ∀ c ∈ l, ∃ d, d < 10 ∧ c = Nat.digitChar d

theorem digitChar_spec (d : Nat) (hd : d < 10) :
    (Nat.digitChar d).isDigit = true ∧ charVal (Nat.digitChar d) = d ∧
    Nat.digitChar d ≠ ':' ∧ Nat.digitChar d ≠ '+' ∧ Nat.digitChar d ≠ '-' ∧
    Nat.digitChar d ≠ '|' ∧ isPyWS (Nat.digitChar d) = false := by
  interval_cases d <;> exact ⟨rfl, rfl, by decide, by decide, by decide, by decide, rfl⟩

theorem natToDigitsGo_append (f : Nat) : ∀ n acc,
    natToDigitsGo f n acc = natToDigitsGo f n [] ++ acc := by
  induction f with
  | zero =>
    intro n acc
    simp [natToDigitsGo]
  | succ f ih =>
    intro n acc
    by_cases h0 : n = 0
    · simp [natToDigitsGo, h0]
    · simp only [natToDigitsGo, h0, if_false]
      rw [ih (n / 10) (Nat.digitChar (n % 10) :: acc),
        ih (n / 10) [Nat.digitChar (n % 10)]]
      simp

theorem natToDigitsGo_digits (f : Nat) : ∀ n, IsDigitList (natToDigitsGo f n []) := by
  induction f with
  | zero =>
    intro n c hc
    simp [natToDigitsGo] at hc
  | succ f ih =>
    intro n c hc
    by_cases h0 : n = 0
    · simp [natToDigitsGo, h0] at hc
    · simp only [natToDigitsGo, h0, if_false] at hc
      rw [natToDigitsGo_append f (n / 10)] at hc
      rcases List.mem_append.mp hc with hc | hc
      · exact ih (n / 10) c hc
      · refine ⟨n % 10, Nat.mod_lt _ (by decide), ?_⟩
        simpa using hc

theorem natToDigitsGo_val (f : Nat) : ∀ n, n ≤ f →
    List.foldl (fun a c => a * 10 + charVal c) 0 (natToDigitsGo f n []) = n := by
  induction f with
  | zero =>
    intro n h
    have : n = 0 := by omega
    simp [natToDigitsGo, this]
  | succ f ih =>
    intro n h
    by_cases h0 : n = 0
    · simp [natToDigitsGo, h0]
    · have hle : n / 10 ≤ f := by
        have : n / 10 < n := Nat.div_lt_self (Nat.pos_of_ne_zero h0) (by decide)
        omega
      simp only [natToDigitsGo, h0, if_false]
      rw [natToDigitsGo_append f (n / 10), List.foldl_append, ih (n / 10) hle]
      have hv := (digitChar_spec (n % 10) (Nat.mod_lt _ (by decide))).2.1
      simp only [List.foldl_cons, List.foldl_nil, hv]
      omega

theorem natToDigitsGo_ne_nil (f n : Nat) (h : n ≠ 0) (hf : n ≤ f) :
    natToDigitsGo f n [] ≠ [] := by
  cases f with
  | zero => omega
  | succ f =>
    simp only [natToDigitsGo, h, if_false]
    rw [natToDigitsGo_append f (n / 10)]
    simp

theorem natToDigits_digits (n : Nat) : IsDigitList (natToDigits n) := by
  rw [natToDigits]
  by_cases h : n = 0
  · simp only [h, if_true]
    intro c hc
    refine ⟨0, by decide, ?_⟩
    simpa using hc
  · simp only [h, if_false]
    exact natToDigitsGo_digits n n

theorem natToDigits_ne_nil (n : Nat) : natToDigits n ≠ [] := by
  rw [natToDigits]
  by_cases h : n = 0
  · simp [h]
  · simp only [h, if_false]
    exact natToDigitsGo_ne_nil n n h le_rfl

theorem natToDigits_val (n : Nat) :
    List.foldl (fun a c => a * 10 + charVal c) 0 (natToDigits n) = n := by
  rw [natToDigits]
  by_cases h : n = 0
  · simp [h]
    rfl
  · simp only [h, if_false]
    exact natToDigitsGo_val n n le_rfl

theorem pyDigitsGo_digits (l : List Char) (hl : IsDigitList l) (acc : Nat) :
    pyDigitsGo acc l = some (List.foldl (fun a c => a * 10 + charVal c) acc l) := by
  induction l generalizing acc with
  | nil => rfl
  | cons c rest ih =>
    obtain ⟨d, hd, rfl⟩ := hl c (by simp)
    have hdig := (digitChar_spec d hd).1
    rw [pyDigitsGo.eq_def]
    simp only [hdig, if_true, List.foldl_cons]
    exact ih (fun x hx => hl x (by simp [hx])) _

theorem pyDigitsVal_digits (l : List Char) (hne : l ≠ []) (hl : IsDigitList l) :
    pyDigitsVal l = some (List.foldl (fun a c => a * 10 + charVal c) 0 l) := by
  cases l with
  | nil => exact absurd rfl hne
  | cons c rest =>
    obtain ⟨d, hd, hc⟩ := hl c (by simp)
    have hdig : c.isDigit = true := hc ▸ (digitChar_spec d hd).1
    rw [pyDigitsVal]
    simp only [hdig, if_true, List.foldl_cons, Nat.zero_mul, Nat.zero_add]
    exact pyDigitsGo_digits rest (fun x hx => hl x (by simp [hx])) _

theorem dropWhile_not_ws (l : List Char) (h : ∀ c ∈ l, isPyWS c = false) :
    l.dropWhile isPyWS = l := by
  cases l with
  | nil => rfl
  | cons c rest => simp [List.dropWhile_cons, h c (by simp)]

theorem pyStrip_digits (l : List Char) (hl : IsDigitList l) : pyStrip l = l := by
  have hws : ∀ c ∈ l, isPyWS c = false := by
    intro c hc
    obtain ⟨d, hd, rfl⟩ := hl c hc
    exact (digitChar_spec d hd).2.2.2.2.2.2
  rw [pyStrip, dropWhile_not_ws l hws, dropWhile_not_ws, List.reverse_reverse]
  intro c hc
  exact hws c (List.mem_reverse.mp hc)

theorem pyInt_digits (l : List Char) (hne : l ≠ []) (hl : IsDigitList l) :
    pyInt l = some ((List.foldl (fun a c => a * 10 + charVal c) 0 l : Nat) : Int) := by
  rw [pyInt, pyStrip_digits l hl]
  cases l with
  | nil => exact absurd rfl hne
  | cons c rest =>
    obtain ⟨d, hd, hc⟩ := hl c (by simp)
    have hplus : c ≠ '+' := hc ▸ (digitChar_spec d hd).2.2.2.1
    have hminus : c ≠ '-' := hc ▸ (digitChar_spec d hd).2.2.2.2.1
    simp only [hplus, if_false, hminus]
    rw [pyDigitsVal_digits _ (by simp) hl]
    rfl

theorem pyInt_natToDigits (n : Nat) : pyInt (natToDigits n) = some (n : Int) := by
  rw [pyInt_digits _ (natToDigits_ne_nil n) (natToDigits_digits n), natToDigits_val]

theorem format02_ofNat (n : Nat) :
    format02 (n : Int) =
      if (natToDigits n).length < 2 then
        List.replicate (2 - (natToDigits n).length) '0' ++ natToDigits n
      else natToDigits n := by
  rw [format02]
  have h0 : ¬ ((n : Int) < 0) := by omega
  simp [h0]

theorem format02_digits (n : Nat) : IsDigitList (format02 (n : Int)) := by
  rw [format02_ofNat]
  by_cases h : (natToDigits n).length < 2
  · simp only [h, if_true]
    intro c hc
    rcases List.mem_append.mp hc with hc | hc
    · refine ⟨0, by decide, ?_⟩
      have := List.eq_of_mem_replicate hc
      simp [this]
      rfl
    · exact natToDigits_digits n c hc
  · simp only [h, if_false]
    exact natToDigits_digits n

theorem format02_ne_nil (n : Nat) : format02 (n : Int) ≠ [] := by
  rw [format02_ofNat]
  by_cases h : (natToDigits n).length < 2
  · simp only [h, if_true]
    simp [natToDigits_ne_nil n]
  · simp only [h, if_false]
    exact natToDigits_ne_nil n

theorem foldl_replicate_zero (k : Nat) :
    List.foldl (fun a c => a * 10 + charVal c) 0 (List.replicate k '0') = 0 := by
  induction k with
  | zero => rfl
  | succ k ih => simpa [List.replicate_succ] using ih

theorem pyInt_format02 (n : Nat) : pyInt (format02 (n : Int)) = some (n : Int) := by
  rw [format02_ofNat]
  by_cases h : (natToDigits n).length < 2
  · simp only [h, if_true]
    rw [pyInt_digits]
    · rw [List.foldl_append, foldl_replicate_zero, natToDigits_val]
    · simp [natToDigits_ne_nil n]
    · intro c hc
      rcases List.mem_append.mp hc with hc | hc
      · refine ⟨0, by decide, ?_⟩
        have := List.eq_of_mem_replicate hc
        simp [this]
        rfl
      · exact natToDigits_digits n c hc
  · simp only [h, if_false]
    exact pyInt_natToDigits n

/-! ### Lemmas about `pySplit` -/

theorem pySplit_no_sep (sep : Char) (l : List Char) (h : ∀ c ∈ l, c ≠ sep) :
    pySplit sep l = [l] := by
  induction l with
  | nil => rfl
  | cons c rest ih =>
    rw [pySplit]
    simp only [h c (by simp), if_false]
    rw [ih (fun x hx => h x (by simp [hx]))]

theorem pySplit_append (sep : Char) (f rest : List Char) (hf : ∀ c ∈ f, c ≠ sep) :
    pySplit sep (f ++ sep :: rest) = f :: pySplit sep rest := by
  induction f with
  | nil => simp [pySplit]
  | cons c f' ih =>
    rw [List.cons_append, pySplit]
    simp only [hf c (by simp), if_false]
    rw [ih (fun x hx => hf x (by simp [hx]))]

/-! ### Lemmas about timestamp arithmetic -/

theorem total_seconds_mk_direct (ty : Sign) (h m s : Int) (o : Orientation) :
    (VideoTimestamp.mk_direct ty h m s o).total_seconds = h * 3600 + m * 60 + s := rfl

theorem total_seconds_from_seconds (n : Int) :
    (VideoTimestamp.from_seconds n).total_seconds = (n.natAbs : Int) := by
  rw [VideoTimestamp.from_seconds, total_seconds_mk_direct]
  omega

theorem from_seconds_total_nonneg (n : Int) :
    0 ≤ (VideoTimestamp.from_seconds n).total_seconds := by
  rw [total_seconds_from_seconds]
  omega

theorem minus_total_seconds (a b : VideoTimestamp) :
    (a.minus b).total_seconds = ((a.total_seconds - b.total_seconds).natAbs : Int) := by
  rw [VideoTimestamp.minus, total_seconds_from_seconds]

theorem plus_total_seconds (a b : VideoTimestamp) :
    (a.plus b).total_seconds = ((a.total_seconds + b.total_seconds).natAbs : Int) := by
  rw [VideoTimestamp.plus, total_seconds_from_seconds]

/-! ### Evaluation lemmas for `VideoTimestamp.parse` -/

theorem parse_eval (c : Char) (rest : List Char) (ty : Sign)
    (hty : (if c = '+' then Sign.plus else if c = '-' then Sign.minus else Sign.bar) = ty)
    (body : List Char)
    (hbody : List.filter (fun x => x ≠ ty.char) (c :: rest) = body)
    (f0 f1 f2 : List Char) (tail : List (List Char))
    (hsplit : pySplit ':' body = f0 :: f1 :: f2 :: tail)
    (h m sec : Int) (h0 : pyInt f0 = some h) (h1 : pyInt f1 = some m)
    (h2 : pyInt f2 = some sec) :
    VideoTimestamp.parse (c :: rest) = .ok ⟨body, ty, h, m, sec, .positive⟩ := by
  rw [VideoTimestamp.parse]
  simp only [hty, hbody, hsplit, listIndex, pyIntE, h0, h1, h2, List.get?]

theorem parse_eval_two (c : Char) (rest : List Char) (ty : Sign)
    (hty : (if c = '+' then Sign.plus else if c = '-' then Sign.minus else Sign.bar) = ty)
    (body : List Char)
    (hbody : List.filter (fun x => x ≠ ty.char) (c :: rest) = body)
    (f0 f1 : List Char)
    (hsplit : pySplit ':' body = [f0, f1])
    (h m : Int) (h0 : pyInt f0 = some h) (h1 : pyInt f1 = some m) :
    VideoTimestamp.parse (c :: rest) = .error .indexError := by
  rw [VideoTimestamp.parse]
  simp only [hty, hbody, hsplit, listIndex, pyIntE, h0, h1, List.get?]

theorem digitChar_ne_colon : ∀ d, d < 10 → Nat.digitChar d ≠ ':' :=
  fun d hd => (digitChar_spec d hd).2.2.1

theorem digitChar_ne_plus : ∀ d, d < 10 → Nat.digitChar d ≠ '+' :=
  fun d hd => (digitChar_spec d hd).2.2.2.1

theorem digitChar_ne_minus : ∀ d, d < 10 → Nat.digitChar d ≠ '-' :=
  fun d hd => (digitChar_spec d hd).2.2.2.2.1

theorem digitChar_ne_bar : ∀ d, d < 10 → Nat.digitChar d ≠ '|' :=
  fun d hd => (digitChar_spec d hd).2.2.2.2.2.1

theorem digit_list_ne (l : List Char) (hl : IsDigitList l) (x : Char)
    (hx : ∀ d, d < 10 → Nat.digitChar d ≠ x) : ∀ c ∈ l, c ≠ x := by
  intro c hc
  obtain ⟨d, hd, rfl⟩ := hl c hc
  exact hx d hd

theorem filter_ne_eq_self (l : List Char) (x : Char) (h : ∀ c ∈ l, c ≠ x) :
    List.filter (fun c => c ≠ x) l = l := by
  rw [List.filter_eq_self]
  intro a ha
  simpa using h a ha

theorem split_sep2 (A B : List Char)
    (hA : ∀ c ∈ A, c ≠ ':') (hB : ∀ c ∈ B, c ≠ ':') :
    pySplit ':' (A ++ ':' :: B) = [A, B] := by
  rw [pySplit_append ':' A _ hA, pySplit_no_sep ':' B hB]

theorem split_sep3 (A B C : List Char)
    (hA : ∀ c ∈ A, c ≠ ':') (hB : ∀ c ∈ B, c ≠ ':') (hC : ∀ c ∈ C, c ≠ ':') :
    pySplit ':' (A ++ ':' :: (B ++ ':' :: C)) = [A, B, C] := by
  rw [pySplit_append ':' A _ hA, split_sep2 B C hB hC]

theorem split_sep4 (A B C D : List Char)
    (hA : ∀ c ∈ A, c ≠ ':') (hB : ∀ c ∈ B, c ≠ ':')
    (hC : ∀ c ∈ C, c ≠ ':') (hD : ∀ c ∈ D, c ≠ ':') :
    pySplit ':' (A ++ ':' :: (B ++ ':' :: (C ++ ':' :: D))) = [A, B, C, D] := by
  rw [pySplit_append ':' A _ hA, split_sep3 B C D hB hC hD]

theorem sep3_mem (A B C : List Char)
    (hdA : IsDigitList A) (hdB : IsDigitList B) (hdC : IsDigitList C) :
    ∀ x ∈ A ++ ':' :: (B ++ ':' :: C), x = ':' ∨ ∃ d, d < 10 ∧ x = Nat.digitChar d := by
  intro x hx
  simp only [List.mem_append, List.mem_cons] at hx
  rcases hx with h1 | rfl | h2 | rfl | h3
  · exact Or.inr (hdA x h1)
  · exact Or.inl rfl
  · exact Or.inr (hdB x h2)
  · exact Or.inl rfl
  · exact Or.inr (hdC x h3)

theorem sep3_ne (A B C : List Char)
    (hdA : IsDigitList A) (hdB : IsDigitList B) (hdC : IsDigitList C)
    (y : Char) (hy : ':' ≠ y) (hdy : ∀ d, d < 10 → Nat.digitChar d ≠ y) :
    ∀ x ∈ A ++ ':' :: (B ++ ':' :: C), x ≠ y := by
  intro x hx
  rcases sep3_mem A B C hdA hdB hdC x hx with rfl | ⟨d, hd, rfl⟩
  · exact hy
  · exact hdy d hd

/-- Parsing a sign-free string of three colon-separated digit fields. -/
theorem parse_three_digit_fields (A B C : List Char)
    (hdA : IsDigitList A) (hdB : IsDigitList B) (hdC : IsDigitList C)
    (hAne : A ≠ [])
    (a b c : Int) (hiA : pyInt A = some a) (hiB : pyInt B = some b)
    (hiC : pyInt C = some c) :
    VideoTimestamp.parse (A ++ ':' :: (B ++ ':' :: C)) =
      .ok ⟨A ++ ':' :: (B ++ ':' :: C), .bar, a, b, c, .positive⟩ := by
  obtain ⟨cA, restA, hA⟩ : ∃ ch r, A = ch :: r := by
    cases A with
    | nil => exact absurd rfl hAne
    | cons ch r => exact ⟨ch, r, rfl⟩
  subst hA
  obtain ⟨d, hd, hcd⟩ := hdA cA (by simp)
  have hsplit0 : pySplit ':' ((cA :: restA) ++ ':' :: (B ++ ':' :: C))
      = [cA :: restA, B, C] :=
    split_sep3 _ B C (digit_list_ne _ hdA ':' digitChar_ne_colon)
      (digit_list_ne B hdB ':' digitChar_ne_colon)
      (digit_list_ne C hdC ':' digitChar_ne_colon)
  rw [List.cons_append] at hsplit0
  have hbody0 :
      List.filter (fun x => x ≠ Sign.char .bar)
        (cA :: (restA ++ ':' :: (B ++ ':' :: C)))
        = cA :: (restA ++ ':' :: (B ++ ':' :: C)) := by
    rw [← List.cons_append]
    exact filter_ne_eq_self _ '|'
      (sep3_ne (cA :: restA) B C hdA hdB hdC '|' (by decide) digitChar_ne_bar)
  rw [List.cons_append]
  exact parse_eval cA (restA ++ ':' :: (B ++ ':' :: C)) .bar
    (by
      rw [hcd]
      rw [if_neg (digitChar_ne_plus d hd), if_neg (digitChar_ne_minus d hd)])
    _ hbody0 (cA :: restA) B C [] hsplit0 a b c hiA hiB hiC

/-- Parsing a string of three colon-separated digit fields with a leading
explicit sign character (`+` or `-`). -/
theorem parse_sign_digit_fields (sc : Char) (ty : Sign)
    (hty : (if sc = '+' then Sign.plus else if sc = '-' then Sign.minus else Sign.bar) = ty)
    (hsc : ty.char = sc)
    (A B C : List Char)
    (hdA : IsDigitList A) (hdB : IsDigitList B) (hdC : IsDigitList C)
    (hscd : ∀ d, d < 10 → Nat.digitChar d ≠ sc) (hscc : ':' ≠ sc)
    (a b c : Int) (hiA : pyInt A = some a) (hiB : pyInt B = some b)
    (hiC : pyInt C = some c) :
    VideoTimestamp.parse (sc :: (A ++ ':' :: (B ++ ':' :: C))) =
      .ok ⟨A ++ ':' :: (B ++ ':' :: C), ty, a, b, c, .positive⟩ := by
  have hbody :
      List.filter (fun x => x ≠ ty.char) (sc :: (A ++ ':' :: (B ++ ':' :: C)))
        = A ++ ':' :: (B ++ ':' :: C) := by
    rw [hsc, List.filter_cons]
    have := filter_ne_eq_self (A ++ ':' :: (B ++ ':' :: C)) sc
      (sep3_ne A B C hdA hdB hdC sc hscc hscd)
    simp only [this]
    simp
  have hsplit : pySplit ':' (A ++ ':' :: (B ++ ':' :: C)) = [A, B, C] :=
    split_sep3 A B C (digit_list_ne A hdA ':' digitChar_ne_colon)
      (digit_list_ne B hdB ':' digitChar_ne_colon)
      (digit_list_ne C hdC ':' digitChar_ne_colon)
  exact parse_eval sc _ ty hty _ hbody A B C [] hsplit a b c hiA hiB hiC

/-- Claim C5.  Round-trip: parsing the canonical formatted string of a
directly constructed timestamp (any sign tag, non-negative
hour/minute/second, any orientation) succeeds and yields a timestamp with
the same `total_seconds`. -/
theorem c5_parse_format_roundtrip (ty : Sign) (hh mm ss : Nat) (o : Orientation) :
    ∃ t, VideoTimestamp.parse
        (VideoTimestamp.mk_direct ty (hh : Int) (mm : Int) (ss : Int) o).timestamp
        = .ok t ∧
      t.total_seconds
        = (VideoTimestamp.mk_direct ty (hh : Int) (mm : Int) (ss : Int) o).total_seconds := by
  have hdA := format02_digits hh
  have hdB := format02_digits mm
  have hdC := format02_digits ss
  have hiA := pyInt_format02 hh
  have hiB := pyInt_format02 mm
  have hiC := pyInt_format02 ss
  cases ty with
  | bar =>
    have htim : (VideoTimestamp.mk_direct .bar (hh : Int) (mm : Int) (ss : Int) o).timestamp
        = format02 (hh : Int) ++ ':' :: (format02 (mm : Int) ++ ':' :: format02 (ss : Int)) := by
      simp [VideoTimestamp.mk_direct]
    refine ⟨⟨format02 (hh : Int) ++ ':' :: (format02 (mm : Int) ++ ':' :: format02 (ss : Int)),
      .bar, (hh : Int), (mm : Int), (ss : Int), .positive⟩, ?_, rfl⟩
    rw [htim]
    exact parse_three_digit_fields _ _ _ hdA hdB hdC (format02_ne_nil hh)
      _ _ _ hiA hiB hiC
  | plus =>
    have htim : (VideoTimestamp.mk_direct .plus (hh : Int) (mm : Int) (ss : Int) o).timestamp
        = '+' :: (format02 (hh : Int) ++ ':' :: (format02 (mm : Int) ++ ':' :: format02 (ss : Int))) := by
      simp [VideoTimestamp.mk_direct, Sign.char]
    refine ⟨⟨format02 (hh : Int) ++ ':' :: (format02 (mm : Int) ++ ':' :: format02 (ss : Int)),
      .plus, (hh : Int), (mm : Int), (ss : Int), .positive⟩, ?_, rfl⟩
    rw [htim]
    exact parse_sign_digit_fields '+' .plus (by simp) rfl _ _ _ hdA hdB hdC
      digitChar_ne_plus (by decide) _ _ _ hiA hiB hiC
  | minus =>
    have htim : (VideoTimestamp.mk_direct .minus (hh : Int) (mm : Int) (ss : Int) o).timestamp
        = '-' :: (format02 (hh : Int) ++ ':' :: (format02 (mm : Int) ++ ':' :: format02 (ss : Int))) := by
      simp [VideoTimestamp.mk_direct, Sign.char]
    refine ⟨⟨format02 (hh : Int) ++ ':' :: (format02 (mm : Int) ++ ':' :: format02 (ss : Int)),
      .minus, (hh : Int), (mm : Int), (ss : Int), .positive⟩, ?_, rfl⟩
    rw [htim]
    exact parse_sign_digit_fields '-' .minus (by decide) rfl _ _ _ hdA hdB hdC
      digitChar_ne_minus (by decide) _ _ _ hiA hiB hiC

/-! ### Claims about `from_seconds` and the arithmetic (C6, C7) -/

/-- Claim C7.  `from_seconds n` has `total_seconds = abs n`, hour/minute/
second the absolute decomposition of `abs n` by 3600 and 60, orientation
`negative` exactly when `n < 0`, and sign tag always the unsigned `|`. -/
theorem c7_from_seconds_spec (n : Int) :
    (VideoTimestamp.from_seconds n).total_seconds = (n.natAbs : Int) ∧
    (VideoTimestamp.from_seconds n).hour = ((n.natAbs / 3600 : Nat) : Int) ∧
    (VideoTimestamp.from_seconds n).minute = ((n.natAbs % 3600 / 60 : Nat) : Int) ∧
    (VideoTimestamp.from_seconds n).second = ((n.natAbs % 60 : Nat) : Int) ∧
    ((VideoTimestamp.from_seconds n).orientation = .negative ↔ n < 0) ∧
    (VideoTimestamp.from_seconds n).type = .bar := by
  refine ⟨total_seconds_from_seconds n, rfl, rfl, rfl, ?_, rfl⟩
  show (if n < 0 then Orientation.negative else Orientation.positive) = .negative ↔ n < 0
  by_cases h : n < 0
  · simp [h]
  · simp [h]

/-- Claim C6 counterexample: with `a = from_seconds 5` and
`b = from_seconds 10`, `((a - b) + b).total_seconds` is `15`, not
`a.total_seconds = 5`, because `minus` folds the negative difference
through the absolute decomposition of `from_seconds`. -/
theorem c6_counterexample :
    (((VideoTimestamp.from_seconds 5).minus (VideoTimestamp.from_seconds 10)).plus
        (VideoTimestamp.from_seconds 10)).total_seconds = 15 ∧
    (VideoTimestamp.from_seconds 5).total_seconds = 5 ∧
    ¬ (((VideoTimestamp.from_seconds 5).minus (VideoTimestamp.from_seconds 10)).plus
        (VideoTimestamp.from_seconds 10)).total_seconds
        = (VideoTimestamp.from_seconds 5).total_seconds := by
  refine ⟨rfl, rfl, by decide⟩

/-- Claim C6 (amended).  `(a - b) + b` preserves `total_seconds` provided
`b.total_seconds ≤ a.total_seconds` and `0 ≤ a.total_seconds` (so that no
absolute-value folding happens in either step). -/
theorem c6_amended_sub_add_total (a b : VideoTimestamp)
    (h1 : b.total_seconds ≤ a.total_seconds) (h2 : 0 ≤ a.total_seconds) :
    ((a.minus b).plus b).total_seconds = a.total_seconds := by
  rw [plus_total_seconds, minus_total_seconds]
  omega

theorem c6_amended_witness :
    (VideoTimestamp.from_seconds 5).total_seconds
      ≤ (VideoTimestamp.from_seconds 10).total_seconds ∧
    0 ≤ (VideoTimestamp.from_seconds 10).total_seconds ∧
    (((VideoTimestamp.from_seconds 10).minus (VideoTimestamp.from_seconds 5)).plus
        (VideoTimestamp.from_seconds 5)).total_seconds
      = (VideoTimestamp.from_seconds 10).total_seconds :=
  ⟨by decide, by decide,
    c6_amended_sub_add_total (VideoTimestamp.from_seconds 10)
      (VideoTimestamp.from_seconds 5) (by decide) (by decide)⟩

/-! ### Claim C1: the `InvalidRange` guard of `get_vel` -/

/-- Claim C1 evaluation.  At the claim's own example —
`vt1 = parse("00:00:05")`, `vt2 = parse("00:00:10")`, so
`vt1.total_seconds < vt2.total_seconds` — `get_vel` does **not** fail:
`(vt1 - vt2).total_seconds` is the absolute value `5`, never negative, so
the `InvalidRange` guard is unreachable and the call returns `1` for every
random oracle. -/
theorem c1_invalid_range_unreachable_at_example :
    ∃ a b, VideoTimestamp.parse ("00:00:05".toList) = .ok a ∧
      VideoTimestamp.parse ("00:00:10".toList) = .ok b ∧
      a.total_seconds < b.total_seconds ∧
      ∀ rand : Int → Int → Int,
        get_vel rand a b default_min_speed_duration default_max_speed_duration
          = .ok 1 := by
  refine ⟨⟨"00:00:05".toList, .bar, 0, 0, 5, .positive⟩,
    ⟨"00:00:10".toList, .bar, 0, 0, 10, .positive⟩, rfl, rfl, by decide,
    fun rand => rfl⟩

/-! ### Claim C9: the stored string after parsing -/

/-- Claim C9 counterexample: parsing `"1:2:3"` leaves the stored string as
`"1:2:3"`, not the zero-padded canonical rendering `"01:02:03"`. -/
theorem c9_counterexample :
    (VideoTimestamp.parse ("1:2:3".toList)).map VideoTimestamp.timestamp
      = .ok ("1:2:3".toList) ∧
    "1:2:3".toList ≠ "01:02:03".toList :=
  ⟨rfl, by decide⟩

/-- Claim C9 (amended).  After a successful parse, the stored `timestamp`
string is the input with every occurrence of the detected sign character
removed — it is not re-rendered zero-padded (that rendering happens only on
direct field construction). -/
theorem c9_amended_parse_keeps_stripped_input (s : List Char) (t : VideoTimestamp)
    (h : VideoTimestamp.parse s = .ok t) :
    t.timestamp = List.filter (fun x => x ≠ t.type.char) s := by
  cases s with
  | nil =>
    rw [VideoTimestamp.parse] at h
    cases h
  | cons c rest =>
    rw [VideoTimestamp.parse] at h
    repeat' split at h
    all_goals cases h
    all_goals rfl

theorem c9_amended_witness :
    VideoTimestamp.parse ("1:2:3".toList)
      = .ok ⟨"1:2:3".toList, .bar, 1, 2, 3, .positive⟩ ∧
    (⟨"1:2:3".toList, .bar, 1, 2, 3, .positive⟩ : VideoTimestamp).timestamp
      = List.filter
          (fun x => x ≠ (⟨"1:2:3".toList, .bar, 1, 2, 3, .positive⟩ : VideoTimestamp).type.char)
          ("1:2:3".toList) :=
  ⟨rfl, c9_amended_parse_keeps_stripped_input ("1:2:3".toList)
    ⟨"1:2:3".toList, .bar, 1, 2, 3, .positive⟩ rfl⟩

/-! ### Claim C10: `str.replace` removes interior sign characters -/

/-- Claim C10.  A leading `+` makes the parser strip every `+` in the
string before splitting, so `"+01:+2:03"` parses successfully with hour 1,
minute 2, second 3 (stored string `"01:2:03"`), instead of failing. -/
theorem c10_interior_sign_removed :
    VideoTimestamp.parse ("+01:+2:03".toList)
      = .ok ⟨"01:2:03".toList, .plus, 1, 2, 3, .positive⟩ := rfl

/-! ### Claim C4: failure modes of parsing -/

theorem parse_eval_fmt0 (c : Char) (rest : List Char) (ty : Sign)
    (hty : (if c = '+' then Sign.plus else if c = '-' then Sign.minus else Sign.bar) = ty)
    (body : List Char)
    (hbody : List.filter (fun x => x ≠ ty.char) (c :: rest) = body)
    (f0 : List Char) (tail : List (List Char))
    (hsplit : pySplit ':' body = f0 :: tail)
    (h0 : pyInt f0 = none) :
    VideoTimestamp.parse (c :: rest) = .error .invalidFormat := by
  rw [VideoTimestamp.parse]
  simp only [hty, hbody, hsplit, listIndex, pyIntE, h0, List.get?]

theorem parse_eval_fmt1 (c : Char) (rest : List Char) (ty : Sign)
    (hty : (if c = '+' then Sign.plus else if c = '-' then Sign.minus else Sign.bar) = ty)
    (body : List Char)
    (hbody : List.filter (fun x => x ≠ ty.char) (c :: rest) = body)
    (f0 f1 : List Char) (tail : List (List Char))
    (hsplit : pySplit ':' body = f0 :: f1 :: tail)
    (h : Int) (h0 : pyInt f0 = some h) (h1 : pyInt f1 = none) :
    VideoTimestamp.parse (c :: rest) = .error .invalidFormat := by
  rw [VideoTimestamp.parse]
  simp only [hty, hbody, hsplit, listIndex, pyIntE, h0, h1, List.get?]

theorem parse_eval_fmt2 (c : Char) (rest : List Char) (ty : Sign)
    (hty : (if c = '+' then Sign.plus else if c = '-' then Sign.minus else Sign.bar) = ty)
    (body : List Char)
    (hbody : List.filter (fun x => x ≠ ty.char) (c :: rest) = body)
    (f0 f1 f2 : List Char) (tail : List (List Char))
    (hsplit : pySplit ':' body = f0 :: f1 :: f2 :: tail)
    (h m : Int) (h0 : pyInt f0 = some h) (h1 : pyInt f1 = some m)
    (h2 : pyInt f2 = none) :
    VideoTimestamp.parse (c :: rest) = .error .invalidFormat := by
  rw [VideoTimestamp.parse]
  simp only [hty, hbody, hsplit, listIndex, pyIntE, h0, h1, h2, List.get?]

theorem parse_eval_one (c : Char) (rest : List Char) (ty : Sign)
    (hty : (if c = '+' then Sign.plus else if c = '-' then Sign.minus else Sign.bar) = ty)
    (body : List Char)
    (hbody : List.filter (fun x => x ≠ ty.char) (c :: rest) = body)
    (f0 : List Char)
    (hsplit : pySplit ':' body = [f0])
    (h : Int) (h0 : pyInt f0 = some h) :
    VideoTimestamp.parse (c :: rest) = .error .indexError := by
  rw [VideoTimestamp.parse]
  simp only [hty, hbody, hsplit, listIndex, pyIntE, h0, List.get?]

theorem joinColon_mem : ∀ (fs : List (List Char)) (ch : Char),
    ch ∈ joinColon fs → ch = ':' ∨ ∃ f, f ∈ fs ∧ ch ∈ f := by
  intro fs
  induction fs with
  | nil =>
    intro ch h
    simp [joinColon] at h
  | cons f fs ih =>
    intro ch h
    cases fs with
    | nil =>
      right
      exact ⟨f, by simp, by simpa [joinColon] using h⟩
    | cons g gs =>
      simp only [joinColon, List.mem_append, List.mem_cons] at h
      rcases h with h | rfl | h
      · exact Or.inr ⟨f, by simp, h⟩
      · exact Or.inl rfl
      · rcases ih ch h with h1 | ⟨g2, hg2, hch⟩
        · exact Or.inl h1
        · exact Or.inr ⟨g2, by simp [hg2], hch⟩

theorem pySplit_joinColon : ∀ fs : List (List Char), fs ≠ [] →
    (∀ f ∈ fs, ∀ ch ∈ f, ch ≠ ':') →
    pySplit ':' (joinColon fs) = fs := by
  intro fs
  induction fs with
  | nil =>
    intro h
    exact absurd rfl h
  | cons f fs ih =>
    intro _ hnc
    cases fs with
    | nil =>
      simp only [joinColon]
      exact pySplit_no_sep ':' f (hnc f (by simp))
    | cons g gs =>
      simp only [joinColon]
      rw [pySplit_append ':' f _ (hnc f (by simp))]
      rw [ih (by simp) (fun x hx => hnc x (by simp [hx]))]

theorem joinColon_filter_bar (fs : List (List Char))
    (hnc : ∀ f ∈ fs, ∀ ch ∈ f, ch ≠ ':' ∧ ch ≠ '|') :
    List.filter (fun x => x ≠ Sign.char .bar) (joinColon fs) = joinColon fs := by
  apply filter_ne_eq_self
  intro ch hch
  rcases joinColon_mem fs ch hch with rfl | ⟨f, hf, hchf⟩
  · decide
  · exact (hnc f hf ch hchf).2

/-- Claim C4 counterexample: `"01:02:03:04"` (more than three fields)
parses successfully — the fourth field is ignored — and `"00:00"` (fewer
than three fields) raises an uncaught `IndexError`, a different failure
mode; neither produces the `InvalidFormat` error the claim requires. -/
theorem c4_counterexample :
    VideoTimestamp.parse ("01:02:03:04".toList)
      = .ok ⟨"01:02:03:04".toList, .bar, 1, 2, 3, .positive⟩ ∧
    VideoTimestamp.parse ("00:00".toList) = .error .indexError :=
  ⟨rfl, rfl⟩

/-- Claim C4 (amended), quantified over every sign-free input of a given
field shape (fields joined by `:`; each field free of `:` and `|`, the
body starting with a non-sign character so `str.replace` is the identity
on it): three or more fields whose first three are numeric parse
successfully with the extra fields ignored; a non-numeric field among the
first three (whatever fields follow) yields the `InvalidFormat` error,
whichever of the three positions it occupies; one or two numeric fields
instead raise the uncaught `IndexError`. -/
theorem c4_amended_failure_modes :
    (∀ (f0 f1 f2 : List Char) (restfs : List (List Char)) (a b c : Int),
      (∀ f ∈ f0 :: f1 :: f2 :: restfs, ∀ ch ∈ f, ch ≠ ':' ∧ ch ≠ '|') →
      (∃ d r, joinColon (f0 :: f1 :: f2 :: restfs) = d :: r ∧ d ≠ '+' ∧ d ≠ '-') →
      pyInt f0 = some a → pyInt f1 = some b → pyInt f2 = some c →
      VideoTimestamp.parse (joinColon (f0 :: f1 :: f2 :: restfs))
        = .ok ⟨joinColon (f0 :: f1 :: f2 :: restfs), .bar, a, b, c, .positive⟩) ∧
    (∀ (f0 : List Char) (restfs : List (List Char)),
      (∀ f ∈ f0 :: restfs, ∀ ch ∈ f, ch ≠ ':' ∧ ch ≠ '|') →
      (∃ d r, joinColon (f0 :: restfs) = d :: r ∧ d ≠ '+' ∧ d ≠ '-') →
      pyInt f0 = none →
      VideoTimestamp.parse (joinColon (f0 :: restfs)) = .error .invalidFormat) ∧
    (∀ (f0 f1 : List Char) (restfs : List (List Char)) (a : Int),
      (∀ f ∈ f0 :: f1 :: restfs, ∀ ch ∈ f, ch ≠ ':' ∧ ch ≠ '|') →
      (∃ d r, joinColon (f0 :: f1 :: restfs) = d :: r ∧ d ≠ '+' ∧ d ≠ '-') →
      pyInt f0 = some a → pyInt f1 = none →
      VideoTimestamp.parse (joinColon (f0 :: f1 :: restfs)) = .error .invalidFormat) ∧
    (∀ (f0 f1 f2 : List Char) (restfs : List (List Char)) (a b : Int),
      (∀ f ∈ f0 :: f1 :: f2 :: restfs, ∀ ch ∈ f, ch ≠ ':' ∧ ch ≠ '|') →
      (∃ d r, joinColon (f0 :: f1 :: f2 :: restfs) = d :: r ∧ d ≠ '+' ∧ d ≠ '-') →
      pyInt f0 = some a → pyInt f1 = some b → pyInt f2 = none →
      VideoTimestamp.parse (joinColon (f0 :: f1 :: f2 :: restfs))
        = .error .invalidFormat) ∧
    (∀ (f0 : List Char) (a : Int),
      (∀ ch ∈ f0, ch ≠ ':' ∧ ch ≠ '|') →
      (∃ d r, joinColon [f0] = d :: r ∧ d ≠ '+' ∧ d ≠ '-') →
      pyInt f0 = some a →
      VideoTimestamp.parse (joinColon [f0]) = .error .indexError) ∧
    (∀ (f0 f1 : List Char) (a b : Int),
      (∀ f ∈ [f0, f1], ∀ ch ∈ f, ch ≠ ':' ∧ ch ≠ '|') →
      (∃ d r, joinColon [f0, f1] = d :: r ∧ d ≠ '+' ∧ d ≠ '-') →
      pyInt f0 = some a → pyInt f1 = some b →
      VideoTimestamp.parse (joinColon [f0, f1]) = .error .indexError) := by
  refine ⟨?_, ?_, ?_, ?_, ?_, ?_⟩
  · intro f0 f1 f2 restfs a b c hnc hhead h0 h1 h2
    obtain ⟨d, r, hdr, hdp, hdm⟩ := hhead
    have hfil := joinColon_filter_bar _ hnc
    have hsp := pySplit_joinColon (f0 :: f1 :: f2 :: restfs) (by simp)
      (fun f hf ch hch => (hnc f hf ch hch).1)
    rw [hdr] at hfil hsp ⊢
    exact parse_eval d r .bar (by rw [if_neg hdp, if_neg hdm]) _ hfil
      f0 f1 f2 restfs hsp a b c h0 h1 h2
  · intro f0 restfs hnc hhead h0
    obtain ⟨d, r, hdr, hdp, hdm⟩ := hhead
    have hfil := joinColon_filter_bar _ hnc
    have hsp := pySplit_joinColon (f0 :: restfs) (by simp)
      (fun f hf ch hch => (hnc f hf ch hch).1)
    rw [hdr] at hfil hsp ⊢
    exact parse_eval_fmt0 d r .bar (by rw [if_neg hdp, if_neg hdm]) _ hfil
      f0 restfs hsp h0
  · intro f0 f1 restfs a hnc hhead h0 h1
    obtain ⟨d, r, hdr, hdp, hdm⟩ := hhead
    have hfil := joinColon_filter_bar _ hnc
    have hsp := pySplit_joinColon (f0 :: f1 :: restfs) (by simp)
      (fun f hf ch hch => (hnc f hf ch hch).1)
    rw [hdr] at hfil hsp ⊢
    exact parse_eval_fmt1 d r .bar (by rw [if_neg hdp, if_neg hdm]) _ hfil
      f0 f1 restfs hsp a h0 h1
  · intro f0 f1 f2 restfs a b hnc hhead h0 h1 h2
    obtain ⟨d, r, hdr, hdp, hdm⟩ := hhead
    have hfil := joinColon_filter_bar _ hnc
    have hsp := pySplit_joinColon (f0 :: f1 :: f2 :: restfs) (by simp)
      (fun f hf ch hch => (hnc f hf ch hch).1)
    rw [hdr] at hfil hsp ⊢
    exact parse_eval_fmt2 d r .bar (by rw [if_neg hdp, if_neg hdm]) _ hfil
      f0 f1 f2 restfs hsp a b h0 h1 h2
  · intro f0 a hf0 hhead h0
    obtain ⟨d, r, hdr, hdp, hdm⟩ := hhead
    have hnc : ∀ f ∈ [f0], ∀ ch ∈ f, ch ≠ ':' ∧ ch ≠ '|' := by
      intro f hf ch hch
      rw [List.mem_singleton] at hf
      subst hf
      exact hf0 ch hch
    have hfil := joinColon_filter_bar [f0] hnc
    have hsp := pySplit_joinColon [f0] (by simp)
      (fun f hf ch hch => (hnc f hf ch hch).1)
    rw [hdr] at hfil hsp ⊢
    exact parse_eval_one d r .bar (by rw [if_neg hdp, if_neg hdm]) _ hfil
      f0 hsp a h0
  · intro f0 f1 a b hnc hhead h0 h1
    obtain ⟨d, r, hdr, hdp, hdm⟩ := hhead
    have hfil := joinColon_filter_bar [f0, f1] hnc
    have hsp := pySplit_joinColon [f0, f1] (by simp)
      (fun f hf ch hch => (hnc f hf ch hch).1)
    rw [hdr] at hfil hsp ⊢
    exact parse_eval_two d r .bar (by rw [if_neg hdp, if_neg hdm]) _ hfil
      f0 f1 hsp a b h0 h1

theorem c4_witness :
    VideoTimestamp.parse ("1:2:3:4:5".toList)
      = .ok ⟨"1:2:3:4:5".toList, .bar, 1, 2, 3, .positive⟩ ∧
    VideoTimestamp.parse ("0x:00:00".toList) = .error .invalidFormat ∧
    VideoTimestamp.parse ("00:00".toList) = .error .indexError := by
  refine ⟨?_, ?_, ?_⟩
  · exact c4_amended_failure_modes.1 ['1'] ['2'] ['3'] [['4'], ['5']] 1 2 3
      (by decide) ⟨'1', ":2:3:4:5".toList, rfl, by decide, by decide⟩ rfl rfl rfl
  · exact c4_amended_failure_modes.2.1 ['0', 'x'] [['0', '0'], ['0', '0']]
      (by decide) ⟨'0', "x:00:00".toList, rfl, by decide, by decide⟩ rfl
  · exact c4_amended_failure_modes.2.2.2.2.2 ['0', '0'] ['0', '0'] 0 0
      (by decide) ⟨'0', "0:00".toList, rfl, by decide, by decide⟩ rfl rfl

/-! ### `get_vel` with the default durations (C1, C2, C8) -/

theorem int_tdiv_ofNat (m k : Nat) :
    Int.tdiv ((m : Nat) : Int) ((k : Nat) : Int) = ((m / k : Nat) : Int) := rfl

/-- Normal form of `get_vel` at the default min/max duration strings: the
`InvalidRange` guard is unreachable, the defaults parse to 10 s and 30 s,
and the random duration total is `rand 0 0 * 3600 + rand 0 0 * 60 + rand 10 30`. -/
theorem get_vel_default_eq (rand : Int → Int → Int) (a b : VideoTimestamp) :
    get_vel rand a b default_min_speed_duration default_max_speed_duration
      = if (b.minus a).total_seconds ≤ 10 then .ok 1
        else if rand 0 0 * 3600 + rand 0 0 * 60 + rand 10 30 = 0 then
          .error .zeroDivision
        else
          .ok (Int.tdiv (b.minus a).total_seconds
            (rand 0 0 * 3600 + rand 0 0 * 60 + rand 10 30)) := by
  have h1 : ¬ ((a.minus b).total_seconds < 0) := by
    rw [minus_total_seconds]
    omega
  rw [get_vel, if_neg h1]
  rfl

/-- Claim C8.  With the default `min_speed_duration`, `get_vel` returns `1`
(and in particular does not fail) whenever `(b - a).total_seconds ≤ 10`. -/
theorem c8_get_vel_returns_one (rand : Int → Int → Int) (a b : VideoTimestamp)
    (h : (b.minus a).total_seconds ≤ 10) :
    get_vel rand a b default_min_speed_duration default_max_speed_duration
      = .ok 1 := by
  rw [get_vel_default_eq, if_pos h]

theorem c8_witness :
    ((VideoTimestamp.from_seconds 10).minus (VideoTimestamp.from_seconds 5)).total_seconds
      ≤ 10 ∧
    get_vel (fun lo _ => lo) (VideoTimestamp.from_seconds 5)
      (VideoTimestamp.from_seconds 10) default_min_speed_duration
      default_max_speed_duration = .ok 1 :=
  ⟨by decide,
    c8_get_vel_returns_one (fun lo _ => lo) (VideoTimestamp.from_seconds 5)
      (VideoTimestamp.from_seconds 10) (by decide)⟩

/-- With the default durations and a range-respecting random oracle,
`get_vel` always succeeds and its result is non-negative (but can be 0). -/
theorem get_vel_default_ok (rand : Int → Int → Int) (hrand : randint_ok rand)
    (a b : VideoTimestamp) :
    ∃ v0, get_vel rand a b default_min_speed_duration default_max_speed_duration
        = .ok v0 ∧ 0 ≤ v0 := by
  rw [get_vel_default_eq]
  by_cases h : (b.minus a).total_seconds ≤ 10
  · rw [if_pos h]
    exact ⟨1, rfl, by norm_num⟩
  · rw [if_neg h]
    have hr0 : rand 0 0 = 0 :=
      le_antisymm (hrand 0 0 le_rfl).2 (hrand 0 0 le_rfl).1
    have hr := hrand 10 30 (by norm_num)
    have hne : ¬ (rand 0 0 * 3600 + rand 0 0 * 60 + rand 10 30 = 0) := by
      rw [hr0]
      omega
    rw [if_neg hne]
    refine ⟨_, rfl, ?_⟩
    rw [minus_total_seconds]
    have hd : rand 0 0 * 3600 + rand 0 0 * 60 + rand 10 30
        = (((rand 10 30).toNat : Nat) : Int) := by
      rw [hr0]
      omega
    rw [hd, int_tdiv_ofNat]
    exact Int.natCast_nonneg _

/-! ### Claims C2 and C3: the dispatched commands of one loop iteration -/

theorem ffmpeg_cmd_ok (input output start to_ts : List Char) (v : Int)
    (hv : v ≠ 0) :
    ffmpeg_cmd input output start to_ts v
      = .ok ⟨input, output, start, to_ts, v⟩ := by
  rw [ffmpeg_cmd, if_neg hv]

/-- Claim C2.  Every accelerated-segment command actually produced by a
loop iteration carries a velocity between 1 and 70 inclusive, equal to
`min (choose_velocity (vt1 + rest_time) vt2) 70`.  (A computed velocity of
0 never reaches a produced command: `ffmpeg_cmd` raises
`ZeroDivisionError` at `round(1 / velocity, 2)` first, aborting the
iteration.) -/
theorem c2_velocity_bounds (rand : Int → Int → Int)
    (vt1 vt2 rest_time : VideoTimestamp) (inf outr outv : List Char)
    (plan : PairPlan) (cmd : SegmentCmd)
    (hrand : randint_ok rand)
    (hplan : process_video_step rand vt1 vt2 rest_time inf outr outv = .ok plan)
    (hcmd : plan.cmd_vel_seg = some cmd) :
    1 ≤ cmd.velocity ∧ cmd.velocity ≤ 70 ∧
    ∃ v0, get_vel rand (vt1.plus rest_time) vt2 default_min_speed_duration
        default_max_speed_duration = .ok v0 ∧ cmd.velocity = min v0 70 := by
  obtain ⟨v0', hv0', hnn⟩ := get_vel_default_ok rand hrand (vt1.plus rest_time) vt2
  rw [process_video_step] at hplan
  split at hplan
  · cases hplan
  · next v0 hv0 =>
    have hveq : v0 = v0' := by
      rw [hv0] at hv0'
      injection hv0'
    subst hveq
    dsimp only at hplan
    rw [ffmpeg_cmd_ok inf outr vt1.timestamp _ 1 (by norm_num)] at hplan
    dsimp only at hplan
    by_cases hgt : (25 : Int) < (vt2.minus vt1).total_seconds
    · have hn25 : ¬ (vt2.minus vt1).total_seconds < 25 := by omega
      simp only [if_pos hgt, if_neg hn25] at hplan
      cases hc : ffmpeg_cmd inf outv (vt1.plus rest_time).timestamp vt2.timestamp
          (min v0 70) with
      | error e =>
        rw [hc] at hplan
        dsimp only [Except.map] at hplan
        cases hplan
      | ok cv =>
        rw [hc] at hplan
        dsimp only [Except.map] at hplan
        injection hplan with h2
        subst h2
        rw [ffmpeg_cmd] at hc
        split at hc
        · cases hc
        · next hne =>
          injection hc with h3
          subst h3
          dsimp only at hcmd
          injection hcmd with h4
          subst h4
          dsimp only
          have h0 : 0 ≤ min v0 70 := le_min hnn (by norm_num)
          exact ⟨by omega, min_le_right _ _, v0, hv0, rfl⟩
    · simp only [if_neg hgt] at hplan
      injection hplan with h2
      subst h2
      dsimp only at hcmd
      cases hcmd

theorem c2_witness :
    randint_ok (fun lo _ => lo) ∧
    ((1 : Int) ≤ (1 : Int) ∧ (1 : Int) ≤ 70 ∧
      ∃ v0, get_vel (fun lo _ => lo)
          ((VideoTimestamp.from_seconds 0).plus (VideoTimestamp.from_seconds 12))
          (VideoTimestamp.from_seconds 27) default_min_speed_duration
          default_max_speed_duration = .ok v0 ∧ (1 : Int) = min v0 70) := by
  have hr : randint_ok (fun lo _ => lo) := fun lo hi hle => ⟨le_rfl, hle⟩
  refine ⟨hr, ?_⟩
  exact c2_velocity_bounds (fun lo _ => lo)
    (VideoTimestamp.from_seconds 0) (VideoTimestamp.from_seconds 27)
    (VideoTimestamp.from_seconds 12) [] [] []
    ⟨1, ⟨[], [], "00:00:00".toList, "00:00:12".toList, 1⟩,
      some ⟨[], [], "00:00:12".toList, "00:00:27".toList, 1⟩⟩
    ⟨[], [], "00:00:12".toList, "00:00:27".toList, 1⟩ hr rfl rfl

/-- Claim C3.  For a completed loop iteration: with difference `< 25` s the
single rest segment spans `vt1..vt2` at velocity 1 and no accelerated
command is produced; with difference `> 25` s the rest segment spans
`vt1..vt1+rest_time` and the accelerated command spanning
`vt1+rest_time..vt2` is dispatched at the computed velocity
`min (choose_velocity ...) 70`; at exactly `25` s the rest segment spans
`vt1..vt1+rest_time` and no accelerated command is produced. -/
theorem c3_segment_branching (rand : Int → Int → Int)
    (vt1 vt2 rest_time : VideoTimestamp) (inf outr outv : List Char)
    (plan : PairPlan)
    (hplan : process_video_step rand vt1 vt2 rest_time inf outr outv = .ok plan) :
    ((vt2.minus vt1).total_seconds < 25 →
      plan.vel = 1 ∧
      plan.cmd_rest_seg = ⟨inf, outr, vt1.timestamp, vt2.timestamp, 1⟩ ∧
      plan.cmd_vel_seg = none) ∧
    (25 < (vt2.minus vt1).total_seconds →
      plan.cmd_rest_seg
        = ⟨inf, outr, vt1.timestamp, (vt1.plus rest_time).timestamp, 1⟩ ∧
      ∃ v0, get_vel rand (vt1.plus rest_time) vt2 default_min_speed_duration
          default_max_speed_duration = .ok v0 ∧
        plan.cmd_vel_seg
          = some ⟨inf, outv, (vt1.plus rest_time).timestamp, vt2.timestamp, min v0 70⟩) ∧
    ((vt2.minus vt1).total_seconds = 25 →
      plan.cmd_rest_seg
        = ⟨inf, outr, vt1.timestamp, (vt1.plus rest_time).timestamp, 1⟩ ∧
      plan.cmd_vel_seg = none) := by
  rw [process_video_step] at hplan
  split at hplan
  · cases hplan
  · next v0 hv0 =>
    dsimp only at hplan
    rw [ffmpeg_cmd_ok inf outr vt1.timestamp _ 1 (by norm_num)] at hplan
    dsimp only at hplan
    refine ⟨?_, ?_, ?_⟩
    · intro hlt
      have hngt : ¬ (25 : Int) < (vt2.minus vt1).total_seconds := by omega
      simp only [if_pos hlt, if_neg hngt] at hplan
      injection hplan with h2
      subst h2
      exact ⟨rfl, rfl, rfl⟩
    · intro hgt
      have hn25 : ¬ (vt2.minus vt1).total_seconds < 25 := by omega
      simp only [if_pos hgt, if_neg hn25] at hplan
      cases hc : ffmpeg_cmd inf outv (vt1.plus rest_time).timestamp vt2.timestamp
          (min v0 70) with
      | error e =>
        rw [hc] at hplan
        dsimp only [Except.map] at hplan
        cases hplan
      | ok cv =>
        rw [hc] at hplan
        dsimp only [Except.map] at hplan
        injection hplan with h2
        subst h2
        rw [ffmpeg_cmd] at hc
        split at hc
        · cases hc
        · injection hc with h3
          subst h3
          exact ⟨rfl, v0, hv0, rfl⟩
    · intro heq
      have hn25 : ¬ (vt2.minus vt1).total_seconds < 25 := by omega
      have hngt : ¬ (25 : Int) < (vt2.minus vt1).total_seconds := by omega
      simp only [if_neg hn25, if_neg hngt] at hplan
      injection hplan with h2
      subst h2
      exact ⟨rfl, rfl⟩

theorem c3_witness :
    process_video_step (fun lo _ => lo) (VideoTimestamp.from_seconds 0)
        (VideoTimestamp.from_seconds 10) (VideoTimestamp.from_seconds 5) [] [] []
      = .ok ⟨1, ⟨[], [], "00:00:00".toList, "00:00:10".toList, 1⟩, none⟩ ∧
    ((VideoTimestamp.from_seconds 10).minus (VideoTimestamp.from_seconds 0)).total_seconds < 25 ∧
    (⟨1, ⟨[], [], "00:00:00".toList, "00:00:10".toList, 1⟩, none⟩ : PairPlan).vel = 1 ∧
    (⟨1, ⟨[], [], "00:00:00".toList, "00:00:10".toList, 1⟩, none⟩ : PairPlan).cmd_vel_seg
      = none := by
  refine ⟨rfl, by decide, ?_, ?_⟩
  · exact ((c3_segment_branching (fun lo _ => lo) (VideoTimestamp.from_seconds 0)
      (VideoTimestamp.from_seconds 10) (VideoTimestamp.from_seconds 5) [] [] []
      ⟨1, ⟨[], [], "00:00:00".toList, "00:00:10".toList, 1⟩, none⟩ rfl).1 (by decide)).1
  · exact ((c3_segment_branching (fun lo _ => lo) (VideoTimestamp.from_seconds 0)
      (VideoTimestamp.from_seconds 10) (VideoTimestamp.from_seconds 5) [] [] []
      ⟨1, ⟨[], [], "00:00:00".toList, "00:00:10".toList, 1⟩, none⟩ rfl).1 (by decide)).2.2

end ASF
